import Mathlib

/-!
Shallow embedding of the `research-radio` pipeline (paper → podcast):
feed parsing state, Google Drive PDF matching, episode store, rate
limiting, text truncation, filename sanitization and script validation,
translated from the Python sources under `src/`.

Strings are modelled over their character lists; Python `str` operations
(`lower`, `strip`, `split`, `replace`, `in`, `rfind`, lexicographic
comparison) are given explicit executable definitions.  Times
(`datetime`) are modelled as rational timestamps in seconds since the
epoch, so that `total_seconds() / 3600` is exact.
-/

set_option autoImplicit false

namespace ResearchRadio

/-- Python whitespace characters (the ASCII ones recognised by `str.split`,
`str.strip` and the regex class `\s`). -/
def isSpaceChar (c : Char) : Bool :=
  c = ' ' || c = '\t' || c = '\n' || c = '\r' || c = '\x0b' || c = '\x0c'

/-- The regex class `\w` (ASCII scope): letters, digits and underscore. -/
def isWordChar (c : Char) : Bool :=
  c.isAlphanum || c = '_'

/-- Python `str.lower()` (ASCII scope). -/
def pyLower (s : String) : String :=
  String.mk (s.data.map Char.toLower)

/-- Python substring test `needle in haystack`. -/
def isSubListOf (needle : List Char) : List Char → Bool
  | [] => needle.isEmpty
  | h :: t => needle.isPrefixOf (h :: t) || isSubListOf needle t

/-- Structural worker for `replaceAll`; the fuel starts at the length of
the scanned list and bounds the number of scanning steps (it never runs
out when it starts at the list's length, since `pat` is nonempty at
every use). -/
def replaceAllAux (pat repl : List Char) : Nat → List Char → List Char
  | _, [] => []
  | 0, s => s
  | n + 1, c :: rest =>
    if pat ≠ [] ∧ pat.isPrefixOf (c :: rest) then
      repl ++ replaceAllAux pat repl n ((c :: rest).drop pat.length)
    else
      c :: replaceAllAux pat repl n rest

/-- Python `str.replace(pat, repl)`: replace every (leftmost,
non-overlapping) occurrence of `pat` by `repl`. -/
def replaceAll (pat repl s : List Char) : List Char :=
  replaceAllAux pat repl s.length s

/-- Python `str.strip()`. -/
def stripWs (s : List Char) : List Char :=
  ((s.dropWhile isSpaceChar).reverse.dropWhile isSpaceChar).reverse

/-- Replace each maximal whitespace run by a single `' '`
(the regex substitution `re.sub(r'\s+', ' ', text)`).
The flag records whether the previous character was whitespace. -/
def collapseWsAux : List Char → Bool → List Char
  | [], _ => []
  | c :: rest, inRun =>
    if isSpaceChar c then
      if inRun then collapseWsAux rest true else ' ' :: collapseWsAux rest true
    else c :: collapseWsAux rest false

def collapseWs (s : List Char) : List Char := collapseWsAux s false

/-- `DriveClient._normalize_for_search`: lowercase, drop characters that are
neither `\w` nor `\s`, collapse whitespace, strip. -/
def normalizeForSearch (s : String) : String :=
  let lowered := s.data.map Char.toLower
  let kept := lowered.filter (fun c => isWordChar c || isSpaceChar c)
  String.mk (stripWs (collapseWs kept))

/-- `re.search(r'(\d{4})', s)`: the first run of four consecutive digits. -/
def findYear4 : List Char → Option (List Char)
  | [] => none
  | c :: rest =>
    if ((c :: rest).take 4).length = 4 && ((c :: rest).take 4).all Char.isDigit then
      some ((c :: rest).take 4)
    else findYear4 rest

/-- One step of Python `str.split()` (fold from the right): accumulate the
current token and the list of later tokens. -/
def splitStep (c : Char) (acc : List Char × List (List Char)) :
    List Char × List (List Char) :=
  if isSpaceChar c then
    if acc.1 = [] then acc else ([], acc.1 :: acc.2)
  else (c :: acc.1, acc.2)

/-- Python `str.split()` (split on whitespace runs, dropping empty tokens). -/
def splitWs (s : String) : List String :=
  let r := s.data.foldr splitStep ([], [])
  let toks := if r.1 = [] then r.2 else r.1 :: r.2
  toks.map String.mk

/-- The last whitespace-separated token of a string
(Python `s.split()[-1]`, `none` when there is no token). -/
def lastToken (s : String) : Option String :=
  (splitWs s).getLast?

/-- Lexicographic comparison of Python strings (code-point order). -/
def listStrLt : List Char → List Char → Bool
  | [], [] => false
  | [], _ :: _ => true
  | _ :: _, [] => false
  | a :: as, b :: bs => a < b || (a = b && listStrLt as bs)

/-- Python `s >= t` on strings. -/
def pyStrGE (s t : String) : Bool :=
  !(listStrLt s.data t.data)

/-! ### Data model: papers, Drive files, episodes, state files -/

/-- `feed_parser.Paper` (the derived `pdf_url` field is not used by any
code under verification and is omitted). -/
structure Paper where
  id : String
  title : String
  url : String
  external_url : Option String
  content_text : Option String
  content_html : Option String
  date_published : Option String
  authors : List String
deriving DecidableEq

/-- Metadata of a PDF held remotely in the Drive folder.  The Drive API
can serve any of these fields; which of them a listing actually carries
is decided by the `fields` selector of the `files().list` request. -/
structure DriveFile where
  id : String
  name : String
  size : String
  modifiedTime : String
deriving DecidableEq

/-- The projection performed by `DriveClient._list_folder_files`, whose
request asks for `fields="nextPageToken, files(id, name, size)"`: each
returned file dict carries exactly the keys `id`, `name` and `size`. -/
def projectFields (f : DriveFile) : List (String × String) :=
  [("id", f.id), ("name", f.name), ("size", f.size)]

/-- `DriveClient._list_folder_files` (pagination flattened): the listing
of the folder under the requested field projection. -/
def listFolderFiles (remote : List DriveFile) : List (List (String × String)) :=
  remote.map projectFields

/-- Python `d.get(k, dflt)` on a string-valued dict (modelled as an
association list with distinct keys). -/
def dictGetD (d : List (String × String)) (k dflt : String) : String :=
  match d.find? (fun kv => kv.1 = k) with
  | some kv => kv.2
  | none => dflt

/-- `DriveClient._build_search_name`: `[FirstAuthor] [Year] - [Title]`,
year taken from `date_published` (when truthy) and otherwise from the
paper id; author surname is the last whitespace token of the first
author. -/
def buildSearchName (p : Paper) : String :=
  let firstAuthor :=
    match p.authors with
    | [] => "Unknown"
    | a :: _ => (lastToken a).getD "Unknown"
  let fromDate :=
    match p.date_published with
    | some d => if d.isEmpty then none else findYear4 d.data
    | none => none
  let year :=
    match fromDate with
    | some y => String.mk y
    | none =>
      match findYear4 p.id.data with
      | some y => String.mk y
      | none => ""
  if year ≠ "" then firstAuthor ++ " " ++ year ++ " - " ++ p.title
  else firstAuthor ++ " - " ++ p.title

/-- The fuzzy score `DriveClient.find_pdf` assigns to one candidate file:
title containment in the normalized name scores 50, first author's
surname 30, the year (searched in the raw name) 20.  A first author
consisting only of whitespace would raise `IndexError` in the source and
is modelled as scoring nothing. -/
def fuzzyScore (p : Paper) (f : List (String × String)) : Nat :=
  let fname := dictGetD f "name" ""
  let fileNorm := normalizeForSearch (String.mk (replaceAll ".pdf".data [] fname.data))
  let titleScore :=
    if isSubListOf (normalizeForSearch p.title).data fileNorm.data then 50 else 0
  let authorScore :=
    match p.authors with
    | [] => 0
    | a :: _ =>
      match lastToken a with
      | some t => if isSubListOf (pyLower t).data fileNorm.data then 30 else 0
      | none => 0
  let yearScore :=
    match p.date_published with
    | some d =>
      if d.isEmpty then 0
      else
        match findYear4 d.data with
        | some y => if isSubListOf y fname.data then 20 else 0
        | none => 0
    | none => 0
  titleScore + authorScore + yearScore

/-- `DriveClient.find_pdf`: first file whose name equals the expected
name case-insensitively; otherwise the first highest-scoring file under
`fuzzyScore`, accepted only when its score reaches 50. -/
def findPdf (p : Paper) (files : List (List (String × String))) :
    Option (List (String × String)) :=
  let expected := buildSearchName p
  match files.find? (fun f => pyLower (dictGetD f "name" "") = pyLower expected ++ ".pdf") with
  | some f => some f
  | none =>
    let best := files.foldl
      (fun acc f =>
        let s := fuzzyScore p f
        if s > acc.2 then (some f, s) else acc)
      ((none : Option (List (String × String))), 0)
    if best.2 ≥ 50 then best.1 else none

/-- The observable state of a JSON state file as the loaders see it:
the file may be absent (`open` raises `FileNotFoundError`), hold text
that is not JSON (`json.load` raises `JSONDecodeError`), or hold a
successfully decoded payload. -/
inductive FileState (α : Type) where
  | missing : FileState α
  | invalid : FileState α
  | stored : α → FileState α
deriving DecidableEq

/-- `feed_parser.load_processed_ids`: `set(data.get('processed_papers', []))`,
with both `FileNotFoundError` and `json.JSONDecodeError` caught and
turned into the empty set. -/
def loadProcessedIds : FileState (List String) → Finset String
  | .missing => ∅
  | .invalid => ∅
  | .stored l => l.toFinset

/-- `feed_parser.save_processed_id`: reload the stored set, add the id,
and write the resulting set back as a list (Python's set order is
arbitrary; the written list is modelled in sorted order). -/
def saveProcessedId (fs : FileState (List String)) (pid : String) : List String :=
  (insert pid (loadProcessedIds fs)).sort (· ≤ ·)

/-- `feed_generator.Episode`.  `pub_date` is the episode's timestamp in
seconds since the epoch (the ISO string stored on disk, parsed by
`datetime.fromisoformat`; datetime comparison and subtraction coincide
with timestamp comparison and subtraction). -/
structure Episode where
  id : String
  title : String
  description : String
  audio_url : String
  audio_size : Int
  duration : Int
  pub_date : ℚ
  authors : List String
deriving DecidableEq

/-- `feed_generator.load_episodes`: decode the stored episode list, with
`FileNotFoundError` and `JSONDecodeError` caught and turned into the
empty list. -/
def loadEpisodes : FileState (List Episode) → List Episode
  | .missing => []
  | .invalid => []
  | .stored l => l

/-- `feed_generator.add_episode`: replace the episode sharing the new
episode's id when one is stored, otherwise append. -/
def addEpisode (episodes : List Episode) (e : Episode) : List Episode :=
  if episodes.any (fun ep => ep.id = e.id) then
    episodes.map (fun ep => if ep.id ≠ e.id then ep else e)
  else
    episodes ++ [e]

/-- `main.MIN_HOURS_BETWEEN_EPISODES`. -/
def MIN_HOURS_BETWEEN_EPISODES : ℚ := 24

/-- `max(episodes, key=lambda e: e.pub_date)`: the first stored episode
with the largest publication date. -/
def latestEpisode (e : Episode) (rest : List Episode) : Episode :=
  rest.foldl (fun acc x => if x.pub_date > acc.pub_date then x else acc) e

/-- The largest `pub_date` among `e :: rest`. -/
def maxPubDate (e : Episode) (rest : List Episode) : ℚ :=
  rest.foldl (fun m x => max m x.pub_date) e.pub_date

/-- `main.can_publish_new_episode` at current time `now` (seconds).  The
second component is the quantity reported in the reason string: the
hours elapsed when publishing is allowed, the hours remaining when it is
not (and `0` for an empty store, where the reason carries no number). -/
def canPublishNewEpisode (now : ℚ) (store : FileState (List Episode)) : Bool × ℚ :=
  match loadEpisodes store with
  | [] => (true, 0)
  | e :: rest =>
    let latest := latestEpisode e rest
    let hoursSince := (now - latest.pub_date) / 3600
    if hoursSince ≥ MIN_HOURS_BETWEEN_EPISODES then (true, hoursSince)
    else (false, MIN_HOURS_BETWEEN_EPISODES - hoursSince)

/-! ### Text truncation (`pdf_extractor.truncate_text`) -/

def TRUNCATION_MARKER : String := "\n\n[Content truncated due to length...]"

/-- Helper for Python `truncated.rfind('\n\n')`: scan with the index of
the head, keeping the best (last) start of a `"\n\n"` occurrence. -/
def rfindParaAux : List Char → Nat → Int → Int
  | [], _, best => best
  | [_], _, best => best
  | a :: b :: rest, i, best =>
    rfindParaAux (b :: rest) (i + 1)
      (if a = '\n' ∧ b = '\n' then (i : Int) else best)

/-- Python `s.rfind('\n\n')`: start index of the last occurrence, `-1`
when there is none. -/
def rfindPara (s : List Char) : Int := rfindParaAux s 0 (-1)

/-- `"\n\n"` occurs in `s` starting at position `i`. -/
def boundaryAt (s : List Char) (i : Nat) : Prop :=
  s[i]? = some '\n' ∧ s[i + 1]? = some '\n'

instance decBoundaryAt (s : List Char) (i : Nat) : Decidable (boundaryAt s i) :=
  inferInstanceAs (Decidable (s[i]? = some '\n' ∧ s[i + 1]? = some '\n'))

/-- `pdf_extractor.truncate_text`.  The float test
`last_para > max_chars * 0.8` is modelled exactly as the rational
comparison `5 * last_para > 4 * max_chars`. -/
def truncateText (text : String) (maxChars : Nat) : String :=
  if text.length ≤ maxChars then text
  else
    let truncated := text.data.take maxChars
    let lastPara := rfindPara truncated
    let kept :=
      if 5 * lastPara > 4 * (maxChars : Int) then truncated.take lastPara.toNat
      else truncated
    String.mk kept ++ TRUNCATION_MARKER

/-! ### Filenames (`main.sanitize_filename`) -/

/-- `main.sanitize_filename`: drop every occurrence of `bibtex:`, turn
`/` and `\` into `_`, and keep at most 100 characters. -/
def sanitizeFilename (pid : String) : String :=
  String.mk ((replaceAll "\\".data "_".data
    (replaceAll "/".data "_".data
      (replaceAll "bibtex:".data [] pid.data))).take 100)

/-- The audio asset filename built in `main.process_paper`:
`f"{sanitize_filename(paper.id)}.mp3"`; `upload_audio_to_release`
uploads the asset under this basename. -/
def audioFilename (pid : String) : String :=
  sanitizeFilename pid ++ ".mp3"

/-! ### Episode construction (`feed_generator`) -/

/-- `feed_generator.format_authors_apa7.format_name`.  A name consisting
only of whitespace would raise `IndexError` in the source and is
modelled as the empty string. -/
def initialOf (p : String) : String :=
  match p.data with
  | [] => ""
  | c :: _ => String.mk [c.toUpper]

def formatName (name : String) : String :=
  match splitWs (String.mk (stripWs name.data)) with
  | [] => ""
  | [p] => p
  | p1 :: p2 :: rest =>
    let parts := p1 :: p2 :: rest
    parts.getLastD "" ++ ", " ++
      String.intercalate ". " (parts.dropLast.map initialOf) ++ "."

/-- `feed_generator.format_authors_apa7`. -/
def formatAuthorsApa7 (authors : List String) : String :=
  match authors with
  | [] => "Unknown"
  | _ :: _ =>
    match authors.map formatName with
    | [] => "Unknown"
    | [a] => a
    | [a, b] => a ++ " & " ++ b
    | l => String.intercalate ", " l.dropLast ++ ", & " ++ l.getLastD ""

/-- `feed_generator.get_github_release_url`. -/
def getGithubReleaseUrl (repo filename : String) : String :=
  "https://github.com/" ++ repo ++ "/releases/download/audio/" ++ filename

/-- `feed_generator.create_episode_from_paper`.  `pubDateYear` stands
for `str(pub_date.year)` of the (always supplied) publication date;
`paper_url` and `episode_title` follow Python truthiness. -/
def createEpisodeFromPaper (repo : String) (paper_id paper_title : String)
    (paper_authors : List String) (audio_filename : String)
    (audio_size duration : Int) (pub_date : ℚ) (pubDateYear : String)
    (paper_url : Option String) (paper_year : Option String)
    (episode_title : Option String) : Episode :=
  let py := paper_year.getD pubDateYear
  let authorsApa := formatAuthorsApa7 paper_authors
  let citation0 := authorsApa ++ " (" ++ py ++ "). " ++ paper_title ++ "."
  let citation :=
    match paper_url with
    | some u => if u.isEmpty then citation0 else citation0 ++ " " ++ u
    | none => citation0
  let description := "AI-generated podcast discussion.\n\nReference:\n" ++ citation
  let title :=
    match episode_title with
    | some t => if t.isEmpty then paper_title else t
    | none => paper_title
  { id := paper_id
    title := "FG\x27s Research Radio: " ++ title
    description := description
    audio_url := getGithubReleaseUrl repo audio_filename
    audio_size := audio_size
    duration := duration
    pub_date := pub_date
    authors := paper_authors }

/-! ### The per-paper pipeline (`main.process_paper`) -/

/-- What `main.process_paper` dereferences on the result of
`generate_podcast`. -/
structure PodcastResult where
  episode_title : Option String
  audio_path : String
deriving DecidableEq

/-- Outcomes of the three external stages for one run of
`process_paper`: PDF text extraction, podcast generation and asset
upload, together with the probed audio metadata. -/
structure StageResults where
  extractedText : Option String
  podcast : Option PodcastResult
  audioSize : Int
  audioDuration : Int
  uploadOk : Bool
deriving DecidableEq

/-- The mutable state `process_paper` can write: the episodes file and
the processed-ids file. -/
structure PipelineState where
  episodesFile : FileState (List Episode)
  processedFile : FileState (List String)
deriving DecidableEq

/-- `main.process_paper`: extract text, generate the podcast, upload the
asset; each failing stage returns `False` before any state is written.
On success the episode is appended through `add_episode` and the paper
id recorded through `save_processed_id`. -/
def processPaper (repo : String) (now : ℚ) (nowYear : String) (p : Paper)
    (env : StageResults) (st : PipelineState) : Bool × PipelineState :=
  match env.extractedText with
  | none => (false, st)
  | some _ =>
    match env.podcast with
    | none => (false, st)
    | some pr =>
      if env.uploadOk = false then (false, st)
      else
        let episodeTitle :=
          match pr.episode_title with
          | some t => if t.isEmpty then p.title else t
          | none => p.title
        let audioFile := audioFilename p.id
        let paperYear :=
          match p.date_published with
          | some d => if d.isEmpty then none else (findYear4 d.data).map String.mk
          | none => none
        let paperUrl :=
          match p.external_url with
          | some u => if u.isEmpty then p.url else u
          | none => p.url
        let ep := createEpisodeFromPaper repo p.id p.title p.authors audioFile
          env.audioSize env.audioDuration now nowYear (some paperUrl) paperYear
          (some episodeTitle)
        (true,
          { episodesFile := .stored (addEpisode (loadEpisodes st.episodesFile) ep)
            processedFile := .stored (saveProcessedId st.processedFile p.id) })

/-! ### Drive-driven paper selection (`main.get_papers_from_drive`) -/

/-- `main.get_papers_from_drive` with the feed download and clock
parameterized: `allPapers` is the parsed feed, `cutoffStr` the string
`(now - timedelta(days=max_age_days)).strftime('%Y-%m-%d')`, and
`listing` the folder listing returned by `_list_folder_files`. -/
def getPapersFromDrive (allPapers : List Paper)
    (processedFile : FileState (List String)) (cutoffStr : String)
    (listing : List (List (String × String))) : List Paper :=
  let processedIds := loadProcessedIds processedFile
  allPapers.filter (fun p =>
    if p.id ∈ processedIds then false
    else
      match findPdf p listing with
      | some info => pyStrGE (dictGetD info "modifiedTime" "") cutoffStr
      | none => false)

/-! ### Script validation (`script_generator.validate_script`) -/

/-- Python values as they come out of `json.loads`. -/
inductive PyVal where
  | pyStr : String → PyVal
  | pyInt : Int → PyVal
  | pyBool : Bool → PyVal
  | pyNone : PyVal
  | pyList : List PyVal → PyVal
  | pyDict : List (String × PyVal) → PyVal

/-- Python `d.get(k)` on a decoded JSON object (keys are distinct). -/
def pyLookup (d : List (String × PyVal)) (k : String) : Option PyVal :=
  (d.find? (fun kv => kv.1 = k)).map (fun kv => kv.2)

/-- The per-turn checks of `script_generator.validate_script`: the turn
is a dict, has both `text` and `speaker` keys, and the speaker value
equals `'R'` or `'S'`. -/
def validTurn : PyVal → Bool
  | .pyDict td =>
    (pyLookup td "text").isSome && (pyLookup td "speaker").isSome &&
      (match pyLookup td "speaker" with
       | some (.pyStr s) => s = "R" || s = "S"
       | _ => false)
  | _ => false

/-- `script_generator.validate_script`. -/
def validateScript : PyVal → Bool
  | .pyDict d =>
    match pyLookup d "multiSpeakerMarkup" with
    | some (.pyDict m) =>
      match pyLookup m "turns" with
      | some (.pyList turns) =>
        decide (4 ≤ turns.length) && turns.all validTurn
      | _ => false
    | _ => false
  | _ => false

/-- The structural conditions that are exactly equivalent to
`validate_script` returning `True` (note: the `text` value need only be
present, it may be any value including the empty string). -/
def ValidShape (v : PyVal) : Prop :=
  ∃ d m turns, v = PyVal.pyDict d ∧
    pyLookup d "multiSpeakerMarkup" = some (PyVal.pyDict m) ∧
    pyLookup m "turns" = some (PyVal.pyList turns) ∧
    4 ≤ turns.length ∧
    ∀ t ∈ turns, ∃ td, t = PyVal.pyDict td ∧
      (pyLookup td "text").isSome ∧
      ∃ s, pyLookup td "speaker" = some (PyVal.pyStr s) ∧ (s = "R" ∨ s = "S")

/-! ### Concrete inputs used by the counterexamples and witnesses -/

/-- An unprocessed feed paper whose PDF sits in the Drive folder. -/
def cPaper : Paper :=
  { id := "bibtex:Roe2025-xy", title := "Deep Work", url := "",
    external_url := none, content_text := none, content_html := none,
    date_published := some "2025-03-04T00:00:00Z", authors := ["Jane Roe"] }

/-- The matching Drive file, modified recently (well inside a 30-day
window ending 2026-10-12). -/
def cFile : DriveFile :=
  { id := "f1", name := "Roe 2025 - Deep Work.pdf", size := "123",
    modifiedTime := "2026-10-01T12:00:00.000Z" }

/-- A paper whose title appears in no file name. -/
def c2Paper : Paper :=
  { id := "bibtex:Doe2025-ab", title := "XYZ", url := "",
    external_url := none, content_text := none, content_html := none,
    date_published := some "2025-01-01T00:00:00Z", authors := ["John Doe"] }

/-- A listed file whose name carries the surname `Doe` and the year
`2025` but nothing of the title `XYZ`. -/
def c2File : List (String × String) :=
  [("id", "f2"), ("name", "Doe 2025 - Something else.pdf"), ("size", "1")]

/-- A stored episode published at the epoch. -/
def ep0 : Episode :=
  { id := "bibtex:A2020-aa", title := "t", description := "", audio_url := "",
    audio_size := 0, duration := 0, pub_date := 0, authors := [] }

/-- Three episodes; `ep1` and `ep2` and `ep3` share one id. -/
def ep1 : Episode :=
  { id := "bibtex:B2021-bb", title := "first", description := "", audio_url := "",
    audio_size := 1, duration := 1, pub_date := 1, authors := [] }

def ep2 : Episode :=
  { id := "bibtex:B2021-bb", title := "second", description := "", audio_url := "",
    audio_size := 2, duration := 2, pub_date := 2, authors := [] }

def ep3 : Episode :=
  { id := "bibtex:B2021-bb", title := "third", description := "", audio_url := "",
    audio_size := 3, duration := 3, pub_date := 3, authors := [] }

/-- A paper for the pipeline-failure witness. -/
def p0 : Paper :=
  { id := "bibtex:C2022-cc", title := "c", url := "u", external_url := none,
    content_text := none, content_html := none, date_published := none,
    authors := [] }

/-- A pipeline state left untouched by a failing run. -/
def st0 : PipelineState :=
  { episodesFile := .stored [ep0], processedFile := .stored ["x"] }

/-- Stage outcomes of a run whose very first stage fails. -/
def env0 : StageResults :=
  { extractedText := none, podcast := none, audioSize := 0,
    audioDuration := 0, uploadOk := false }

/-- A turn whose `text` is present but empty; its speaker is valid. -/
def c9turn : List (String × PyVal) :=
  [("text", PyVal.pyStr ""), ("speaker", PyVal.pyStr "R")]

/-- A four-turn script built from `c9turn`. -/
def c9script : PyVal :=
  .pyDict [("multiSpeakerMarkup",
    .pyDict [("turns",
      .pyList [.pyDict c9turn, .pyDict c9turn, .pyDict c9turn, .pyDict c9turn])])]

/-- A well-formed turn with non-empty text. -/
def c9goodTurn : List (String × PyVal) :=
  [("text", PyVal.pyStr "hi"), ("speaker", PyVal.pyStr "S")]

/-- A four-turn script built from `c9goodTurn`. -/
def c9good : PyVal :=
  .pyDict [("multiSpeakerMarkup",
    .pyDict [("turns",
      .pyList [.pyDict c9goodTurn, .pyDict c9goodTurn, .pyDict c9goodTurn,
        .pyDict c9goodTurn])])]

/-! ## Theorems -/

/-- Claim C10: when the processed-ids file or the episodes file is
missing or holds invalid JSON, the caught exceptions make
`load_processed_ids` return the empty set and `load_episodes` the empty
list, so a corrupted state file behaves as an empty store. -/
theorem corrupt_state_files_read_empty :
    loadProcessedIds FileState.missing = ∅ ∧
    loadProcessedIds FileState.invalid = ∅ ∧
    loadEpisodes FileState.missing = [] ∧
    loadEpisodes FileState.invalid = [] :=
  ⟨rfl, rfl, rfl, rfl⟩

/-- Claim C5: `save_processed_id` writes exactly the union of the
previously stored set with the new id; every previously present id
survives, and saving the same id again leaves the stored set
unchanged. -/
theorem saveProcessedId_monotone_union (fs : FileState (List String)) (pid : String) :
    (saveProcessedId fs pid).toFinset = loadProcessedIds fs ∪ {pid} ∧
    (∀ x, x ∈ loadProcessedIds fs → x ∈ (saveProcessedId fs pid).toFinset) ∧
    (saveProcessedId (FileState.stored (saveProcessedId fs pid)) pid).toFinset =
      (saveProcessedId fs pid).toFinset := by
  have h1 : ∀ (s : Finset String) (q : String),
      ((insert q s).sort (· ≤ ·)).toFinset = insert q s := by
    intro s q
    exact Finset.sort_toFinset _ _
  refine ⟨?_, ?_, ?_⟩
  · rw [saveProcessedId, h1, Finset.insert_eq, Finset.union_comm]
  · intro x hx
    rw [saveProcessedId, h1]
    exact Finset.mem_insert_of_mem hx
  · have h2 : (saveProcessedId fs pid).toFinset = insert pid (loadProcessedIds fs) :=
      h1 _ _
    show ((insert pid (loadProcessedIds (.stored (saveProcessedId fs pid)))).sort
      (· ≤ ·)).toFinset = _
    rw [h1]
    show insert pid (saveProcessedId fs pid).toFinset = _
    rw [h2, Finset.insert_idem]

/-- Witness for C5 at a concrete store and id. -/
theorem saveProcessedId_monotone_union_witness :
    "a" ∈ (saveProcessedId (FileState.stored ["a"]) "b").toFinset ∧
    (saveProcessedId (FileState.stored ["a"]) "b").toFinset =
      loadProcessedIds (FileState.stored ["a"]) ∪ {"b"} := by
  have h := saveProcessedId_monotone_union (FileState.stored ["a"]) "b"
  exact ⟨h.2.1 "a" (by decide), h.1⟩

/-- Claim C3: whichever of the three stages fails — text extraction
returning none, podcast generation returning none, or the upload
returning false — `process_paper` returns `False` without touching the
episode store or the processed set. -/
theorem processPaper_failure_leaves_state (repo nowYear : String) (now : ℚ)
    (p : Paper) (env : StageResults) (st : PipelineState)
    (h : env.extractedText = none ∨ env.podcast = none ∨ env.uploadOk = false) :
    processPaper repo now nowYear p env st = (false, st) := by
  unfold processPaper
  cases hx : env.extractedText with
  | none => rfl
  | some t =>
    cases hp : env.podcast with
    | none => rfl
    | some pr =>
      rcases h with h | h | h
      · rw [hx] at h; cases h
      · rw [hp] at h; cases h
      · simp [h]

/-- Witness for C3: a failing extraction stage leaves a concrete state
unchanged. -/
theorem processPaper_failure_leaves_state_witness :
    processPaper "o/r" 0 "2026" p0 env0 st0 = (false, st0) :=
  processPaper_failure_leaves_state "o/r" "2026" 0 p0 env0 st0 (Or.inl rfl)

/-- Claim C1 (failing run, evaluated): `cPaper` is unprocessed, its PDF
is in the folder and was modified inside the window (its `modifiedTime`
compares at least the cutoff string), yet `get_papers_from_drive`
returns the empty list — the listing built by `_list_folder_files`
requests only `id, name, size`, so the `modifiedTime` lookup falls back
to `''`, which is below every cutoff. -/
theorem c1_recent_pdf_excluded :
    findPdf cPaper (listFolderFiles [cFile]) = some (projectFields cFile) ∧
    pyStrGE cFile.modifiedTime "2026-09-12" = true ∧
    dictGetD (projectFields cFile) "modifiedTime" "" = "" ∧
    getPapersFromDrive [cPaper] (FileState.stored []) "2026-09-12"
      (listFolderFiles [cFile]) = [] := by
  refine ⟨by decide, by decide, by decide, by decide⟩

/-- Counterexample to claim C2: for `c2Paper` and the single-file
listing `[c2File]` there is no exact name match and the normalized title
is not contained in the file's normalized name, while the surname and
the year are — and `find_pdf` returns the file instead of none. -/
theorem c2_findPdf_counterexample :
    findPdf c2Paper [c2File] = some c2File ∧
    isSubListOf (normalizeForSearch c2Paper.title).data
      (normalizeForSearch (String.mk (replaceAll ".pdf".data []
        (dictGetD c2File "name" "").data))).data = false ∧
    pyLower (dictGetD c2File "name" "") ≠ pyLower (buildSearchName c2Paper) ++ ".pdf" ∧
    isSubListOf (pyLower "Doe").data
      (normalizeForSearch (String.mk (replaceAll ".pdf".data []
        (dictGetD c2File "name" "").data))).data = true ∧
    isSubListOf "2025".data (dictGetD c2File "name" "").data = true := by
  refine ⟨by decide, by decide, by decide, by decide, by decide⟩

/-- Counterexample to claim C8: the filename is built by
`main.sanitize_filename`, which strips `bibtex:` but performs no
restriction to alphanumerics, `-` and `_`: the dot survives. -/
theorem c8_sanitize_counterexample :
    audioFilename "bibtex:Doe.2025" = "Doe.2025.mp3" ∧
    ((sanitizeFilename "bibtex:Doe.2025").data.all
      (fun c => c.isAlphanum || c = '-' || c = '_')) = false := by
  refine ⟨by decide, by decide⟩

/-- Counterexample to claim C9: a script whose four turns all carry an
empty `text` value passes `validate_script`, so the `text` field is only
required to be present, not non-empty. -/
theorem c9_validateScript_counterexample :
    validateScript c9script = true ∧
    pyLookup c9turn "text" = some (PyVal.pyStr "") :=
  ⟨by decide, rfl⟩

/-! ### Rate limiting (C4) -/

theorem latestEpisode_pubDate (e : Episode) (rest : List Episode) :
    (latestEpisode e rest).pub_date = maxPubDate e rest := by
  induction rest generalizing e with
  | nil => rfl
  | cons x xs ih =>
    have hstep : (if x.pub_date > e.pub_date then x else e).pub_date
        = max e.pub_date x.pub_date := by
      split
      · next hgt => exact (max_eq_right (le_of_lt hgt)).symm
      · next hng => exact (max_eq_left (not_lt.mp hng)).symm
    calc (latestEpisode e (x :: xs)).pub_date
        = (latestEpisode (if x.pub_date > e.pub_date then x else e) xs).pub_date := rfl
      _ = maxPubDate (if x.pub_date > e.pub_date then x else e) xs := ih _
      _ = xs.foldl (fun m y => max m y.pub_date) (max e.pub_date x.pub_date) := by
            unfold maxPubDate; rw [hstep]
      _ = maxPubDate e (x :: xs) := rfl

theorem canPublishNewEpisode_stored_cons (now : ℚ) (e : Episode) (rest : List Episode) :
    canPublishNewEpisode now (.stored (e :: rest)) =
      if (now - maxPubDate e rest) / 3600 ≥ 24 then
        (true, (now - maxPubDate e rest) / 3600)
      else (false, 24 - (now - maxPubDate e rest) / 3600) := by
  show (if (now - (latestEpisode e rest).pub_date) / 3600 ≥ MIN_HOURS_BETWEEN_EPISODES then
      (true, (now - (latestEpisode e rest).pub_date) / 3600)
    else (false, MIN_HOURS_BETWEEN_EPISODES - (now - (latestEpisode e rest).pub_date) / 3600)) = _
  rw [latestEpisode_pubDate]
  rfl

/-- Claim C4: on a non-empty store, `can_publish_new_episode` answers
`False` exactly when fewer than 24 hours have elapsed since the largest
stored `pub_date`, and then reports `24` minus the elapsed hours as the
remaining time. -/
theorem canPublishNewEpisode_rate_limit (now : ℚ) (e : Episode) (rest : List Episode) :
    ((canPublishNewEpisode now (.stored (e :: rest))).1 = false ↔
      now - maxPubDate e rest < 24 * 3600) ∧
    ((canPublishNewEpisode now (.stored (e :: rest))).1 = false →
      (canPublishNewEpisode now (.stored (e :: rest))).2 =
        24 - (now - maxPubDate e rest) / 3600) := by
  rw [canPublishNewEpisode_stored_cons]
  have h36 : (0:ℚ) < 3600 := by norm_num
  have hiff : ((now - maxPubDate e rest) / 3600 ≥ 24) ↔
      ¬(now - maxPubDate e rest < 24 * 3600) := by
    rw [ge_iff_le, le_div_iff₀ h36, not_lt]
  by_cases hc : (now - maxPubDate e rest) / 3600 ≥ 24
  · rw [if_pos hc]
    refine ⟨⟨fun h => Bool.noConfusion h, fun h => absurd h (hiff.mp hc)⟩,
      fun h => Bool.noConfusion h⟩
  · rw [if_neg hc]
    exact ⟨⟨fun _ => by_contra fun hn => hc (hiff.mpr hn), fun _ => rfl⟩,
      fun _ => rfl⟩

/-- Witness for C4: with the latest episode 23 hours old, publishing is
refused with one hour remaining; 25 hours old, it is allowed. -/
theorem canPublishNewEpisode_rate_limit_witness :
    (canPublishNewEpisode (23 * 3600) (.stored [ep0])).1 = false ∧
    (canPublishNewEpisode (23 * 3600) (.stored [ep0])).2 = 1 ∧
    (canPublishNewEpisode (25 * 3600) (.stored [ep0])).1 = true := by
  have h23 := canPublishNewEpisode_rate_limit (23 * 3600) ep0 []
  have h25 := canPublishNewEpisode_rate_limit (25 * 3600) ep0 []
  have hm : maxPubDate ep0 [] = 0 := rfl
  have hf : (canPublishNewEpisode (23 * 3600) (.stored [ep0])).1 = false :=
    h23.1.mpr (by rw [hm]; norm_num)
  refine ⟨hf, ?_, ?_⟩
  · rw [h23.2 hf, hm]; norm_num
  · cases hb : (canPublishNewEpisode (25 * 3600) (.stored [ep0])).1 with
    | false => exact absurd (h25.1.mp hb) (by rw [hm]; norm_num)
    | true => rfl

/-! ### Episode-store uniqueness (C6) -/

theorem addEpisode_ids_nodup (l : List Episode) (e : Episode)
    (hnd : (l.map Episode.id).Nodup) :
    ((addEpisode l e).map Episode.id).Nodup := by
  unfold addEpisode
  split
  · next hany =>
    have hmap : (l.map (fun ep => if ep.id ≠ e.id then ep else e)).map Episode.id
        = l.map Episode.id := by
      rw [List.map_map]
      apply List.map_congr_left
      intro ep _
      by_cases hid : ep.id = e.id
      · simp [hid]
      · simp [hid]
    rw [hmap]; exact hnd
  · next hany =>
    have hnotin : e.id ∉ l.map Episode.id := by
      intro hmem
      rcases List.mem_map.mp hmem with ⟨ep, hep, hid⟩
      exact hany (List.any_eq_true.mpr ⟨ep, hep, by simp [hid]⟩)
    rw [List.map_append]
    rw [List.nodup_append]
    refine ⟨hnd, List.nodup_singleton _, ?_⟩
    intro a ha hb
    simp only [List.map_cons, List.map_nil, List.mem_singleton] at hb
    subst hb
    exact hnotin ha

theorem filter_map_replace (l : List Episode) (e : Episode)
    (hnd : (l.map Episode.id).Nodup) (hany : ∃ ep ∈ l, ep.id = e.id) :
    (l.map (fun ep => if ep.id ≠ e.id then ep else e)).filter
      (fun ep => ep.id = e.id) = [e] := by
  induction l with
  | nil => rcases hany with ⟨ep, h, _⟩; cases h
  | cons a t ih =>
    have hnd2 : (a.id ∉ t.map Episode.id) ∧ (t.map Episode.id).Nodup := by
      rw [List.map_cons, List.nodup_cons] at hnd
      exact hnd
    simp only [List.map_cons, List.filter_cons]
    by_cases ha : a.id = e.id
    · rw [if_neg (not_not_intro ha)]
      rw [if_pos (by simp)]
      have ht : ∀ ep ∈ t, ep.id ≠ e.id := by
        intro ep hep heq
        exact hnd2.1 (by rw [ha, ← heq]; exact List.mem_map_of_mem Episode.id hep)
      have hempty : (t.map (fun ep => if ep.id ≠ e.id then ep else e)).filter
          (fun ep => ep.id = e.id) = [] := by
        apply List.filter_eq_nil_iff.mpr
        intro b hb
        rcases List.mem_map.mp hb with ⟨ep, hep, hfb⟩
        have hbe : ep = b := by rw [← hfb, if_pos (ht ep hep)]
        subst hbe
        simp [ht ep hep]
      rw [hempty]
    · rw [if_pos ha]
      rw [if_neg (by simp [ha])]
      apply ih hnd2.2
      rcases hany with ⟨ep, hep, hid⟩
      rcases List.mem_cons.mp hep with h | h
      · exact absurd (h ▸ hid) ha
      · exact ⟨ep, h, hid⟩

theorem filter_append_single (l : List Episode) (e : Episode)
    (hnone : ∀ ep ∈ l, ep.id ≠ e.id) :
    (l ++ [e]).filter (fun ep => ep.id = e.id) = [e] := by
  rw [List.filter_append]
  have h1 : l.filter (fun ep => ep.id = e.id) = [] :=
    List.filter_eq_nil_iff.mpr (fun ep hep => by simp [hnone ep hep])
  rw [h1]
  simp

theorem addEpisode_filter_eq (l : List Episode) (e : Episode)
    (hnd : (l.map Episode.id).Nodup) :
    (addEpisode l e).filter (fun ep => ep.id = e.id) = [e] := by
  unfold addEpisode
  split
  · next hany =>
    apply filter_map_replace l e hnd
    rcases List.any_eq_true.mp hany with ⟨ep, hep, hid⟩
    exact ⟨ep, hep, by simpa using hid⟩
  · next hany =>
    apply filter_append_single
    intro ep hep heq
    exact hany (List.any_eq_true.mpr ⟨ep, hep, by simp [heq]⟩)

/-- Claim C6: on a store with pairwise distinct ids, `add_episode`
keeps the ids pairwise distinct and leaves exactly one episode with the
added episode's id (the new one); a second `add_episode` with the same
id again leaves exactly that one latest episode. -/
theorem addEpisode_unique_id (l : List Episode) (e e2 : Episode)
    (hnd : (l.map Episode.id).Nodup) (hid : e2.id = e.id) :
    ((addEpisode l e).map Episode.id).Nodup ∧
    (addEpisode l e).filter (fun ep => ep.id = e.id) = [e] ∧
    ((addEpisode (addEpisode l e) e2).map Episode.id).Nodup ∧
    (addEpisode (addEpisode l e) e2).filter (fun ep => ep.id = e.id) = [e2] := by
  have h1 := addEpisode_ids_nodup l e hnd
  have h2 := addEpisode_filter_eq (addEpisode l e) e2 h1
  rw [hid] at h2
  exact ⟨h1, addEpisode_filter_eq l e hnd, addEpisode_ids_nodup _ e2 h1, h2⟩

/-- Witness for C6 on a concrete store: `ep1`, `ep2`, `ep3` share an id,
and after adding `ep2` and then `ep3` exactly one episode with that id
remains. -/
theorem addEpisode_unique_id_witness :
    ((addEpisode [ep1] ep2).map Episode.id).Nodup ∧
    (addEpisode [ep1] ep2).filter (fun ep => ep.id = ep2.id) = [ep2] ∧
    ((addEpisode (addEpisode [ep1] ep2) ep3).map Episode.id).Nodup ∧
    (addEpisode (addEpisode [ep1] ep2) ep3).filter
      (fun ep => ep.id = ep2.id) = [ep3] :=
  addEpisode_unique_id [ep1] ep2 ep3 (by decide) (by decide)

/-! ### Filename sanitization (C8) -/

theorem notMem_replaceAllAux (c : Char) (pat repl : List Char) (hr : c ∉ repl) :
    ∀ (n : Nat) (s : List Char), c ∉ s → c ∉ replaceAllAux pat repl n s := by
  intro n
  induction n with
  | zero =>
    intro s hs
    cases s with
    | nil => simp [replaceAllAux]
    | cons d rest => simpa [replaceAllAux] using hs
  | succ n ih =>
    intro s hs
    cases s with
    | nil => simp [replaceAllAux]
    | cons d rest =>
      rw [replaceAllAux]
      split
      · intro hmem
        rcases List.mem_append.mp hmem with h | h
        · exact hr h
        · exact ih _ (fun hm => hs (List.mem_of_mem_drop hm)) h
      · intro hmem
        rcases List.mem_cons.mp hmem with h | h
        · exact hs (by rw [h]; exact List.mem_cons_self d rest)
        · exact ih rest (fun hm => hs (List.mem_cons_of_mem d hm)) h

theorem notMem_replaceAll (c : Char) (pat repl s : List Char)
    (hr : c ∉ repl) (hs : c ∉ s) : c ∉ replaceAll pat repl s :=
  notMem_replaceAllAux c pat repl hr s.length s hs

theorem notMem_replaceAllAux_single (c : Char) (repl : List Char) (hr : c ∉ repl) :
    ∀ (n : Nat) (s : List Char), s.length ≤ n → c ∉ replaceAllAux [c] repl n s := by
  intro n
  induction n with
  | zero =>
    intro s hlen
    have : s = [] := List.length_eq_zero.mp (Nat.le_zero.mp hlen)
    subst this
    simp [replaceAllAux]
  | succ n ih =>
    intro s hlen
    cases s with
    | nil => simp [replaceAllAux]
    | cons d rest =>
      rw [replaceAllAux]
      split
      · next hcond =>
        intro hmem
        rcases List.mem_append.mp hmem with h | h
        · exact hr h
        · have hd : (d :: rest).drop ([c].length) = rest := by simp
          rw [hd] at h
          exact ih rest (by simpa using hlen) h
      · next hcond =>
        have hne : c ≠ d := by
          intro hcd
          exact hcond ⟨by simp, by simp [List.isPrefixOf, hcd.symm]⟩
        intro hmem
        rcases List.mem_cons.mp hmem with h | h
        · exact hne h
        · exact ih rest (by simpa using hlen) h

theorem notMem_replaceAll_single (c : Char) (repl s : List Char) (hr : c ∉ repl) :
    c ∉ replaceAll [c] repl s :=
  notMem_replaceAllAux_single c repl hr s.length s le_rfl

/-- Claim C8 (amended): the audio asset filename is the paper id with
every `bibtex:` occurrence removed and `/`, `\` replaced by `_`,
truncated to 100 characters, with `.mp3` appended; the stem is at most
100 characters and free of `/` and `\`, but is not restricted to
alphanumerics, `-`, `_`. -/
theorem audioFilename_spec (pid : String) :
    ∃ stem : String, audioFilename pid = stem ++ ".mp3" ∧
      stem.length ≤ 100 ∧ ∀ c ∈ stem.data, c ≠ '/' ∧ c ≠ '\\' := by
  refine ⟨sanitizeFilename pid, rfl, ?_, ?_⟩
  · show (List.take 100 (replaceAll "\\".data "_".data
      (replaceAll "/".data "_".data
        (replaceAll "bibtex:".data [] pid.data)))).length ≤ 100
    exact List.length_take_le 100 _
  · intro c hc
    have hc' : c ∈ replaceAll "\\".data "_".data
        (replaceAll "/".data "_".data (replaceAll "bibtex:".data [] pid.data)) :=
      List.take_subset 100 _ hc
    constructor
    · intro hslash
      subst hslash
      have hmid : '/' ∉ replaceAll "/".data "_".data
          (replaceAll "bibtex:".data [] pid.data) :=
        notMem_replaceAll_single '/' "_".data _ (by decide)
      exact notMem_replaceAll '/' "\\".data "_".data _ (by decide) hmid hc'
    · intro hback
      subst hback
      exact notMem_replaceAll_single '\\' "_".data _ (by decide) hc'

/-- Witness for C8 at a concrete paper id. -/
theorem audioFilename_spec_witness :
    ∃ stem : String, audioFilename "bibtex:a/b" = stem ++ ".mp3" ∧
      stem.length ≤ 100 ∧ ∀ c ∈ stem.data, c ≠ '/' ∧ c ≠ '\\' :=
  audioFilename_spec "bibtex:a/b"

/-! ### Truncation (C7) -/

theorem rfindParaAux_spec (s : List Char) :
    ∀ (i : Nat) (best : Int), best < (i : Int) →
      (rfindParaAux s i best = best ∨
        ∃ j : Nat, rfindParaAux s i best = (i : Int) + (j : Int) ∧ boundaryAt s j) ∧
      (∀ j : Nat, boundaryAt s j → (i : Int) + (j : Int) ≤ rfindParaAux s i best) ∧
      best ≤ rfindParaAux s i best := by
  induction s with
  | nil =>
    intro i best hlt
    refine ⟨Or.inl rfl, ?_, le_refl _⟩
    intro j hj
    simp [boundaryAt] at hj
  | cons a t ih =>
    cases t with
    | nil =>
      intro i best hlt
      refine ⟨Or.inl rfl, ?_, le_refl _⟩
      intro j hj
      have h2 := hj.2
      rw [List.getElem?_cons_succ] at h2
      simp at h2
    | cons b r =>
      intro i best hlt
      have hstep : rfindParaAux (a :: b :: r) i best
          = rfindParaAux (b :: r) (i + 1)
              (if a = '\n' ∧ b = '\n' then (i : Int) else best) := rfl
      set best2 := if a = '\n' ∧ b = '\n' then (i : Int) else best with hb2
      have hlt2 : best2 < ((i + 1 : Nat) : Int) := by
        rw [hb2]; split <;> push_cast <;> omega
      obtain ⟨h1, h2, h3⟩ := ih (i + 1) best2 hlt2
      have hbb : best ≤ best2 := by
        rw [hb2]; split
        · exact le_of_lt hlt
        · exact le_refl best
      refine ⟨?_, ?_, ?_⟩
      · rcases h1 with h1 | ⟨j, hj, hbj⟩
        · by_cases hab : a = '\n' ∧ b = '\n'
          · right
            refine ⟨0, ?_, ?_⟩
            · rw [hstep, h1, hb2, if_pos hab]; push_cast; ring
            · exact ⟨by simp [hab.1], by simp [hab.2]⟩
          · left
            rw [hstep, h1, hb2, if_neg hab]
        · right
          refine ⟨j + 1, ?_, ?_⟩
          · rw [hstep, hj]; push_cast; ring
          · exact ⟨by rw [List.getElem?_cons_succ]; exact hbj.1,
              by rw [List.getElem?_cons_succ]; exact hbj.2⟩
      · intro j hj
        cases j with
        | zero =>
          have ha : a = '\n' := by
            have := hj.1; simpa using this
          have hb : b = '\n' := by
            have := hj.2; simpa using this
          have hbi : best2 = (i : Int) := by rw [hb2, if_pos ⟨ha, hb⟩]
          rw [hstep]
          have : (i : Int) + ((0 : Nat) : Int) = best2 := by rw [hbi]; simp
          rw [this]
          exact h3
        | succ j =>
          have hbj : boundaryAt (b :: r) j :=
            ⟨by have := hj.1; rwa [List.getElem?_cons_succ] at this,
             by have := hj.2; rwa [List.getElem?_cons_succ] at this⟩
          have hle := h2 j hbj
          rw [hstep]
          push_cast at hle ⊢
          omega
      · rw [hstep]; exact le_trans hbb h3

theorem rfindPara_ge (s : List Char) (j : Nat) (h : boundaryAt s j) :
    (j : Int) ≤ rfindPara s := by
  have := (rfindParaAux_spec s 0 (-1) (by norm_num)).2.1 j h
  simpa [rfindPara] using this

theorem rfindPara_boundary (s : List Char) (h : 0 ≤ rfindPara s) :
    boundaryAt s (rfindPara s).toNat := by
  rcases (rfindParaAux_spec s 0 (-1) (by norm_num)).1 with h1 | ⟨j, hj, hbj⟩
  · rw [rfindPara] at h
    rw [h1] at h
    norm_num at h
  · rw [rfindPara, hj]
    simpa using hbj

theorem mk_append_data (l : List Char) (t : String) :
    (String.mk l ++ t).data = l ++ t.data := by
  cases t
  rfl

theorem mk_append_length (l : List Char) (t : String) :
    (String.mk l ++ t).length = l.length + t.length := by
  show (String.mk l ++ t).data.length = l.length + t.data.length
  rw [mk_append_data, List.length_append]

/-- Claim C7: text no longer than the budget is returned unchanged;
longer text is cut to at most `maxChars` plus the marker length, ends
with the marker, and the cut happens at the last paragraph boundary of
the first `maxChars` characters whenever some boundary lies past 80% of
the budget, and at `maxChars` itself otherwise. -/
theorem truncateText_spec (text : String) (maxChars : Nat) :
    (text.length ≤ maxChars → truncateText text maxChars = text) ∧
    (maxChars < text.length →
      (truncateText text maxChars).length ≤ maxChars + TRUNCATION_MARKER.length ∧
      TRUNCATION_MARKER.data <:+ (truncateText text maxChars).data ∧
      (∀ j : Nat, boundaryAt (text.data.take maxChars) j →
          4 * (maxChars : Int) < 5 * (j : Int) →
        truncateText text maxChars =
          String.mk ((text.data.take maxChars).take
            (rfindPara (text.data.take maxChars)).toNat) ++ TRUNCATION_MARKER ∧
        boundaryAt (text.data.take maxChars)
          (rfindPara (text.data.take maxChars)).toNat ∧
        ∀ j2 : Nat, boundaryAt (text.data.take maxChars) j2 →
          (j2 : Int) ≤ rfindPara (text.data.take maxChars)) ∧
      ((∀ j : Nat, boundaryAt (text.data.take maxChars) j →
          5 * (j : Int) ≤ 4 * (maxChars : Int)) →
        truncateText text maxChars =
          String.mk (text.data.take maxChars) ++ TRUNCATION_MARKER)) := by
  constructor
  · intro hle
    unfold truncateText
    rw [if_pos hle]
  · intro hgt
    have hnle : ¬ text.length ≤ maxChars := not_le.mpr hgt
    have heq : truncateText text maxChars =
        String.mk (if 5 * rfindPara (text.data.take maxChars) > 4 * (maxChars : Int)
          then (text.data.take maxChars).take (rfindPara (text.data.take maxChars)).toNat
          else text.data.take maxChars) ++ TRUNCATION_MARKER := by
      unfold truncateText
      rw [if_neg hnle]
    refine ⟨?_, ?_, ?_, ?_⟩
    · rw [heq, mk_append_length]
      have h1 : (text.data.take maxChars).length ≤ maxChars := List.length_take_le _ _
      have hb : (if 5 * rfindPara (text.data.take maxChars) > 4 * (maxChars : Int)
          then (text.data.take maxChars).take (rfindPara (text.data.take maxChars)).toNat
          else text.data.take maxChars).length ≤ maxChars := by
        split
        · rw [List.length_take]; omega
        · exact h1
      omega
    · rw [heq, mk_append_data]
      exact List.suffix_append _ _
    · intro j hbj hpast
      have hle : (j : Int) ≤ rfindPara (text.data.take maxChars) := rfindPara_ge _ j hbj
      have hcond : 5 * rfindPara (text.data.take maxChars) > 4 * (maxChars : Int) := by
        omega
      refine ⟨?_, ?_, fun j2 hb2 => rfindPara_ge _ j2 hb2⟩
      · rw [heq, if_pos hcond]
      · apply rfindPara_boundary
        have h0 : (0 : Int) ≤ (j : Int) := Int.natCast_nonneg j
        omega
    · intro hall
      have hcond : ¬ (5 * rfindPara (text.data.take maxChars) > 4 * (maxChars : Int)) := by
        rcases lt_or_le (rfindPara (text.data.take maxChars)) 0 with hneg | hpos
        · have h0 : (0 : Int) ≤ 4 * (maxChars : Int) := by positivity
          omega
        · have hb := rfindPara_boundary _ hpos
          have h5 := hall _ hb
          have htn : (((rfindPara (text.data.take maxChars)).toNat : Int))
              = rfindPara (text.data.take maxChars) := Int.toNat_of_nonneg hpos
          omega
      rw [heq, if_neg hcond]

/-- Witness for C7: a 14-character text with budget 11 and a paragraph
boundary at index 9 (past 80% of 11) is cut at that boundary and ends
with the marker. -/
theorem truncateText_spec_witness :
    truncateText "aaaaaaaaa\n\nbbb" 11 =
      String.mk (("aaaaaaaaa\n\nbbb".data.take 11).take
        (rfindPara ("aaaaaaaaa\n\nbbb".data.take 11)).toNat) ++ TRUNCATION_MARKER ∧
    TRUNCATION_MARKER.data <:+ (truncateText "aaaaaaaaa\n\nbbb" 11).data := by
  have h := (truncateText_spec "aaaaaaaaa\n\nbbb" 11).2 (by decide)
  exact ⟨(h.2.2.1 9 (by decide) (by decide)).1, h.2.1⟩

/-! ### Fuzzy matching threshold (C2) -/

theorem bestFold_mem (p : Paper) (fs : List (List (String × String)))
    (acc : Option (List (String × String)) × Nat) (g : List (String × String))
    (h : (fs.foldl (fun acc f =>
        if fuzzyScore p f > acc.2 then (some f, fuzzyScore p f) else acc) acc).1
      = some g) :
    acc.1 = some g ∨ g ∈ fs := by
  induction fs generalizing acc with
  | nil => exact Or.inl h
  | cons f t ih =>
    rw [List.foldl_cons] at h
    rcases ih _ h with h2 | h2
    · by_cases hs : fuzzyScore p f > acc.2
      · rw [if_pos hs] at h2
        simp only [Option.some.injEq] at h2
        exact Or.inr (by rw [← h2]; exact List.mem_cons_self f t)
      · rw [if_neg hs] at h2
        exact Or.inl h2
    · exact Or.inr (List.mem_cons_of_mem f h2)

theorem bestFold_score (p : Paper) (fs : List (List (String × String)))
    (acc : Option (List (String × String)) × Nat) (g : List (String × String))
    (h : (fs.foldl (fun acc f =>
        if fuzzyScore p f > acc.2 then (some f, fuzzyScore p f) else acc) acc).1
      = some g) :
    (fs.foldl (fun acc f =>
        if fuzzyScore p f > acc.2 then (some f, fuzzyScore p f) else acc) acc).2
      = fuzzyScore p g ∨
    (acc.1 = some g ∧
      (fs.foldl (fun acc f =>
        if fuzzyScore p f > acc.2 then (some f, fuzzyScore p f) else acc) acc).2
      = acc.2) := by
  induction fs generalizing acc with
  | nil => exact Or.inr ⟨h, rfl⟩
  | cons f t ih =>
    rw [List.foldl_cons] at h ⊢
    rcases ih _ h with h2 | ⟨h2a, h2b⟩
    · exact Or.inl h2
    · by_cases hs : fuzzyScore p f > acc.2
      · rw [if_pos hs] at h2a h2b ⊢
        simp only [Option.some.injEq] at h2a
        subst h2a
        exact Or.inl h2b
      · rw [if_neg hs] at h2a h2b ⊢
        exact Or.inr ⟨h2a, h2b⟩

/-- Claim C2 (amended): with no exact (case-insensitive) expected-name
match in the listing, `find_pdf` returns a file only when that file is
listed and its fuzzy score reaches the threshold 50 — which a title
match alone (50) satisfies, but which the author surname (30) together
with the year (20) also reach without any title correlation. -/
theorem findPdf_requires_score_fifty (p : Paper)
    (files : List (List (String × String))) (f : List (String × String))
    (hex : ∀ g ∈ files,
      pyLower (dictGetD g "name" "") ≠ pyLower (buildSearchName p) ++ ".pdf")
    (h : findPdf p files = some f) :
    f ∈ files ∧ 50 ≤ fuzzyScore p f := by
  have hfind : files.find? (fun g =>
      pyLower (dictGetD g "name" "") = pyLower (buildSearchName p) ++ ".pdf") = none := by
    apply List.find?_eq_none.mpr
    intro g hg
    simpa using hex g hg
  simp only [findPdf] at h
  rw [hfind] at h
  dsimp only at h
  split at h
  · next hge =>
    rcases bestFold_mem p files (none, 0) f h with hacc | hmem
    · cases hacc
    rcases bestFold_score p files (none, 0) f h with hsc | ⟨hacc, _⟩
    · rw [hsc] at hge
      exact ⟨hmem, hge⟩
    · cases hacc
  · cases h

/-- Witness for C2's amended theorem: the counterexample inputs satisfy
both hypotheses, and the returned file indeed scores at least 50. -/
theorem findPdf_requires_score_fifty_witness :
    c2File ∈ [c2File] ∧ 50 ≤ fuzzyScore c2Paper c2File :=
  findPdf_requires_score_fifty c2Paper [c2File] c2File (by decide) (by decide)

/-! ### Script validation (C9) -/

theorem validTurn_iff (t : PyVal) :
    validTurn t = true ↔ ∃ td, t = PyVal.pyDict td ∧
      (pyLookup td "text").isSome ∧
      ∃ s, pyLookup td "speaker" = some (PyVal.pyStr s) ∧ (s = "R" ∨ s = "S") := by
  cases t with
  | pyDict td =>
    simp only [validTurn, Bool.and_eq_true]
    constructor
    · rintro ⟨⟨htext, -⟩, hmatch⟩
      refine ⟨td, rfl, htext, ?_⟩
      cases hs : pyLookup td "speaker" with
      | none => rw [hs] at hmatch; simp at hmatch
      | some v =>
        rw [hs] at hmatch
        cases v with
        | pyStr s =>
          refine ⟨s, rfl, ?_⟩
          simpa using hmatch
        | pyInt n => simp at hmatch
        | pyBool b => simp at hmatch
        | pyNone => simp at hmatch
        | pyList l => simp at hmatch
        | pyDict d2 => simp at hmatch
    · rintro ⟨td2, heq, htext, s, hs, hRS⟩
      injection heq with h
      subst h
      refine ⟨⟨htext, by rw [hs]; rfl⟩, ?_⟩
      rw [hs]
      rcases hRS with h | h <;> simp [h]
  | pyStr s =>
    constructor
    · intro h; simp [validTurn] at h
    · rintro ⟨td, h, -⟩; cases h
  | pyInt n =>
    constructor
    · intro h; simp [validTurn] at h
    · rintro ⟨td, h, -⟩; cases h
  | pyBool b =>
    constructor
    · intro h; simp [validTurn] at h
    · rintro ⟨td, h, -⟩; cases h
  | pyNone =>
    constructor
    · intro h; simp [validTurn] at h
    · rintro ⟨td, h, -⟩; cases h
  | pyList l =>
    constructor
    · intro h; simp [validTurn] at h
    · rintro ⟨td, h, -⟩; cases h

theorem validateScript_of_shape (v : PyVal) (hs : ValidShape v) :
    validateScript v = true := by
  rcases hs with ⟨d, m, turns, rfl, hm, ht, h4, hturns⟩
  simp only [validateScript, hm, ht]
  simp only [Bool.and_eq_true, decide_eq_true_eq, List.all_eq_true]
  exact ⟨h4, fun t ht2 => (validTurn_iff t).mpr (hturns t ht2)⟩

theorem shape_of_validateScript (v : PyVal) (h : validateScript v = true) :
    ValidShape v := by
  cases v with
  | pyDict d =>
    simp only [validateScript] at h
    split at h
    · next m hm =>
      split at h
      · next turns ht =>
        simp only [Bool.and_eq_true, decide_eq_true_eq, List.all_eq_true] at h
        exact ⟨d, m, turns, rfl, hm, ht, h.1,
          fun t ht2 => (validTurn_iff t).mp (h.2 t ht2)⟩
      · simp at h
    · simp at h
  | pyStr s => simp [validateScript] at h
  | pyInt n => simp [validateScript] at h
  | pyBool b => simp [validateScript] at h
  | pyNone => simp [validateScript] at h
  | pyList l => simp [validateScript] at h

/-- Claim C9 (amended): `validate_script` returns `True` exactly for a
dict whose `multiSpeakerMarkup` entry is a dict whose `turns` entry is a
list of at least four turns, each turn a dict carrying a `text` key (of
any value, possibly the empty string) and a `speaker` key whose value is
the string `'R'` or `'S'`. -/
theorem validateScript_iff_shape (v : PyVal) :
    validateScript v = true ↔ ValidShape v :=
  ⟨shape_of_validateScript v, validateScript_of_shape v⟩

/-- Witness for C9's amended theorem on a concrete valid script. -/
theorem validateScript_iff_shape_witness : ValidShape c9good :=
  (validateScript_iff_shape c9good).mp (by decide)

end ResearchRadio
